import Mathlib

/-!
Shallow embedding of the Item Registry Service
(`src/.ipynb_checkpoints/main-checkpoint.py`): a FastAPI CRUD application
over an in-memory `Dict[str, Item]` with pydantic request validation.

Modelling conventions:
* JSON payload fields are `Option (Option α)`: `none` = field absent from the
  request body, `some none` = field present with an explicit JSON `null`,
  `some (some v)` = field present with value `v`.  This mirrors pydantic's
  `__fields_set__` / `dict(exclude_unset=True)` distinction.
* `float` prices and taxes are modelled as `ℚ`: the code only compares them
  against 0 (`gt=0`, `ge=0`), and every comparison appearing in the spec is
  exact at the values involved.
* `datetime` timestamps are modelled as `ℕ`; each handler receives the value
  of its `get_current_time` dependency as an explicit argument.
* `str(uuid.uuid4())` is modelled as an explicit `new_id` argument to
  `create_item`; freshness and non-emptiness of the generated string are
  hypotheses where a claim needs them.
* The Python `dict` is an association list: assignment to an existing key
  replaces it in place, assignment to a new key appends, `del` removes the
  entry, `list(d.values())` is the values in insertion order.
* Stored `Item` objects are plain Python objects mutated by `setattr` with
  `validate_assignment` left at its default (off), so any field that a patch
  can touch is `Option`-typed in the stored record even when the declared
  schema requires a value: `setattr` can really store `None` there.
-/

namespace ItemRegistry

/-- A field of a parsed JSON body: absent, explicit null, or a value. -/
abbrev JField (α : Type) := Option (Option α)

/-- A request body for POST /items or PUT /items/{id}, after JSON parsing and
before pydantic validation.  `extra_id`, `extra_created_at`, `extra_updated_at`
model caller-supplied `id` / `created_at` / `updated_at` keys, which are not
fields of `ItemCreate` or `ItemUpdate` and are dropped by pydantic
(default `Extra.ignore`). -/
structure Payload where
  name : JField String
  description : JField String
  price : JField ℚ
  tax : JField ℚ
  tags : JField (List String)
  extra_id : Option String
  extra_created_at : Option ℕ
  extra_updated_at : Option ℕ
deriving Repr, DecidableEq

/-- The payload with every field absent. -/
def Payload.empty : Payload :=
  { name := none, description := none, price := none, tax := none,
    tags := none, extra_id := none, extra_created_at := none,
    extra_updated_at := none }

/-- A stored `Item` object.  The schema declares `name`, `price`, `tags` as
required, but `update_item` mutates the object with `setattr` without
validation, so at runtime those attributes can hold `None`; hence they are
`Option`-typed here, with `itemSchemaOk` expressing the declared schema. -/
structure Item where
  id : String
  name : Option String
  description : Option String
  price : Option ℚ
  tax : Option ℚ
  tags : Option (List String)
  created_at : ℕ
  updated_at : ℕ
deriving Repr, DecidableEq

/-- `Field(..., min_length=1, max_length=100)` on `name`. -/
def nameOk (s : String) : Bool := decide (1 ≤ s.length ∧ s.length ≤ 100)

/-- `Field(..., gt=0)` on `price`. -/
def priceOk (q : ℚ) : Bool := decide (0 < q)

/-- `Field(..., ge=0)` on `tax`. -/
def taxOk (q : ℚ) : Bool := decide (0 ≤ q)

/-- Does this stored item satisfy the declared `Item` schema (`name`
non-empty, at most 100 characters; `price > 0`; `tax ≥ 0` when present;
`tags` an actual list)? -/
def itemSchemaOk (it : Item) : Bool :=
  (match it.name with | some s => nameOk s | none => false) &&
  (match it.price with | some q => priceOk q | none => false) &&
  (match it.tax with | some t => taxOk t | none => true) &&
  it.tags.isSome

/-- The fields of a successfully validated `ItemCreate` body. -/
structure CreateFields where
  name : String
  description : Option String
  price : ℚ
  tax : Option ℚ
  tags : List String
deriving Repr, DecidableEq

/-- The names of the `ItemCreate` fields a pydantic validation of `p` would
report as violated.  `name` and `price` are required (absent and explicit
null both fail); `tax` is `Optional` (null passes, a value must be `≥ 0`);
`tags` has a default (absent passes) but is not `Optional` (null fails);
`description` is unconstrained. -/
def createErrors (p : Payload) : List String :=
  (match p.name with
   | some (some s) => if nameOk s then [] else ["name"]
   | _ => ["name"]) ++
  (match p.price with
   | some (some q) => if priceOk q then [] else ["price"]
   | _ => ["price"]) ++
  (match p.tax with
   | some (some t) => if taxOk t then [] else ["tax"]
   | _ => []) ++
  (match p.tags with
   | some none => ["tags"]
   | _ => [])

/-- Pydantic validation of an `ItemCreate` body: collects every violated
field, and on success produces the field values (`description`/`tax`
collapse null to `None`; `tags` defaults to `[]` when absent). -/
def validateCreate (p : Payload) : Except (List String) CreateFields :=
  match p.name, p.price with
  | some (some s), some (some q) =>
    if createErrors p = [] then
      .ok { name := s, description := p.description.join, price := q,
            tax := p.tax.join, tags := (p.tags.join).getD [] }
    else .error (createErrors p)
  | _, _ => .error (createErrors p)

/-- The names of the `ItemUpdate` fields a pydantic validation of `p` would
report as violated.  Every field of `ItemUpdate` is `Optional`, so an
explicit null always passes; constraints apply only to present non-null
values of `name`, `price`, `tax`. -/
def updateErrors (p : Payload) : List String :=
  (match p.name with
   | some (some s) => if nameOk s then [] else ["name"]
   | _ => []) ++
  (match p.price with
   | some (some q) => if priceOk q then [] else ["price"]
   | _ => []) ++
  (match p.tax with
   | some (some t) => if taxOk t then [] else ["tax"]
   | _ => [])

/-- The in-memory database `items_db: Dict[str, Item]`, as an assoc list in
insertion order. -/
abbrev Db := List (String × Item)

/-- `items_db[k]` / `k in items_db`. -/
def dbFind (db : Db) (k : String) : Option Item :=
  match db with
  | [] => none
  | (k', it) :: rest => if k' = k then some it else dbFind rest k

/-- `items_db[k] = it`: replaces an existing key in place, appends a new
key at the end (Python dict semantics). -/
def dbInsert (db : Db) (k : String) (it : Item) : Db :=
  match db with
  | [] => [(k, it)]
  | (k', it') :: rest =>
    if k' = k then (k, it) :: rest else (k', it') :: dbInsert rest k it

/-- `del items_db[k]`. -/
def dbErase (db : Db) (k : String) : Db :=
  match db with
  | [] => []
  | (k', it') :: rest => if k' = k then rest else (k', it') :: dbErase rest k

/-- Errors surfaced to the caller: `HTTPException(404, ...)` and
`RequestValidationError` (422, listing the violated fields). -/
inductive ApiError where
  | notFound (msg : String)
  | validation (fields : List String)
deriving Repr, DecidableEq

/-- The 404 detail string `f"Item with ID {item_id} not found"`. -/
def notFoundMsg (item_id : String) : String :=
  "Item with ID " ++ item_id ++ " not found"

/-- GET /items: `return list(items_db.values())`. -/
def read_items (db : Db) : List Item := db.map Prod.snd

/-- GET /items/{item_id}. -/
def read_item (db : Db) (item_id : String) : Except ApiError Item :=
  match dbFind db item_id with
  | none => .error (.notFound (notFoundMsg item_id))
  | some it => .ok it

/-- POST /items.  FastAPI validates the `ItemCreate` body before the handler
runs, so on a validation error the registry is untouched.  On success the
handler builds the item from the validated fields with a fresh `id` and
`created_at = updated_at = current_time`, stores it, and returns it. -/
def create_item (db : Db) (new_id : String) (now : ℕ) (p : Payload) :
    Except ApiError (Item × Db) :=
  match validateCreate p with
  | .error errs => .error (.validation errs)
  | .ok f =>
    let new_item : Item :=
      { id := new_id, name := some f.name, description := f.description,
        price := some f.price, tax := f.tax, tags := some f.tags,
        created_at := now, updated_at := now }
    .ok (new_item, dbInsert db new_id new_item)

/-- The `for field, value in update_data.items(): setattr(item_data, field,
value)` loop followed by `item_data.updated_at = current_time`: every field
present in the body (null included) overwrites the stored attribute;
absent fields are untouched. -/
def applyPatch (it : Item) (p : Payload) (now : ℕ) : Item :=
  { it with
    name := match p.name with | some v => v | none => it.name,
    description := match p.description with | some v => v | none => it.description,
    price := match p.price with | some v => v | none => it.price,
    tax := match p.tax with | some v => v | none => it.tax,
    tags := match p.tags with | some v => v | none => it.tags,
    updated_at := now }

/-- PUT /items/{item_id}.  FastAPI validates the `ItemUpdate` body BEFORE the
handler's `item_id not in items_db` check, so an invalid body on a missing id
yields a validation error, not a 404. -/
def update_item (db : Db) (item_id : String) (now : ℕ) (p : Payload) :
    Except ApiError (Item × Db) :=
  if updateErrors p ≠ [] then .error (.validation (updateErrors p))
  else
    match dbFind db item_id with
    | none => .error (.notFound (notFoundMsg item_id))
    | some it =>
      let it' := applyPatch it p now
      .ok (it', dbInsert db item_id it')

/-- DELETE /items/{item_id}. -/
def delete_item (db : Db) (item_id : String) : Except ApiError Db :=
  match dbFind db item_id with
  | none => .error (.notFound (notFoundMsg item_id))
  | some _ => .ok (dbErase db item_id)

/-- A state-changing operation, with the data the environment supplies
(generated uuid for create). -/
inductive Op where
  | create (new_id : String) (p : Payload)
  | update (item_id : String) (p : Payload)
  | delete (item_id : String)
deriving Repr, DecidableEq

/-- The registry after one request at wall-clock time `now`: a failing
request leaves it unchanged. -/
def applyOp (db : Db) (now : ℕ) (op : Op) : Db :=
  match op with
  | .create nid p =>
    match create_item db nid now p with
    | .ok (_, db') => db'
    | .error _ => db
  | .update i p =>
    match update_item db i now p with
    | .ok (_, db') => db'
    | .error _ => db
  | .delete i =>
    match delete_item db i with
    | .ok db' => db'
    | .error _ => db

/-- Registry states reachable from the empty startup state by any sequence of
requests, with the wall clock (`datetime.now()`) non-decreasing; the second
component is the time of the last request. -/
inductive Reach : Db → ℕ → Prop
  | init : Reach [] 0
  | step {db t t' op} : Reach db t → t ≤ t' → Reach (applyOp db t' op) t'

/-- A patch that supplies no explicit null for the schema-required fields
`name`, `price`, `tags`. -/
def patchNullFree (p : Payload) : Bool :=
  p.name ≠ some none && p.price ≠ some none && p.tags ≠ some none

/-- An operation whose patch, if any, is null-free on required fields. -/
def opSafe : Op → Bool
  | .update _ p => patchNullFree p
  | _ => true

/-- Reachability restricted to requests whose update patches never set
`name`, `price`, or `tags` to an explicit null. -/
inductive ReachSafe : Db → ℕ → Prop
  | init : ReachSafe [] 0
  | step {db t t' op} : ReachSafe db t → t ≤ t' → opSafe op = true →
      ReachSafe (applyOp db t' op) t'

/-- A create payload "containing the same fields" as the patch `p`: the
fields present in `p` are kept as given, and the required fields absent from
`p` are supplied with values that pass validation on their own. -/
def completeWithValid (p : Payload) : Payload :=
  { p with
    name := match p.name with | some v => some v | none => some (some "x"),
    price := match p.price with | some v => some v | none => some (some 1) }

/-- The keys of the registry, in insertion order. -/
def dbKeys (db : Db) : List String := db.map Prod.fst

instance exceptDecEq {ε α : Type} [DecidableEq ε] [DecidableEq α] :
    DecidableEq (Except ε α) := fun a b =>
  match a, b with
  | .ok x, .ok y =>
    if h : x = y then isTrue (by rw [h])
    else isFalse (by intro he; cases he; exact h rfl)
  | .error x, .error y =>
    if h : x = y then isTrue (by rw [h])
    else isFalse (by intro he; cases he; exact h rfl)
  | .ok _, .error _ => isFalse (by intro he; cases he)
  | .error _, .ok _ => isFalse (by intro he; cases he)

/-- Sequential application of requests, each tagged with its wall-clock
time. -/
def applyOps (db : Db) (reqs : List (ℕ × Op)) : Db :=
  reqs.foldl (fun d r => applyOp d r.1 r.2) db

/-- Is every request in the list an update? -/
def allUpdates (reqs : List (ℕ × Op)) : Bool :=
  reqs.all fun r => match r.2 with | .update _ _ => true | _ => false

/-- Auxiliary invariant carried through the reachability induction: keys are
unique, every entry is keyed by its own `id`, schema-conformant, and has
timestamps ordered and bounded by the last request time. -/
def dbInvAux (db : Db) (t : ℕ) : Prop :=
  (dbKeys db).Nodup ∧
  ∀ k it, (k, it) ∈ db → it.id = k ∧ itemSchemaOk it = true ∧
    it.created_at ≤ it.updated_at ∧ it.updated_at ≤ t

/-- A valid create body: `{"name": "a", "price": 1}`. -/
def samplePayload : Payload :=
  { Payload.empty with name := some (some "a"), price := some (some 1) }

/-- The item `samplePayload` creates at time 0 under the generated id
`"i"`. -/
def sampleItem : Item :=
  { id := "i", name := some "a", description := none, price := some 1,
    tax := none, tags := some [], created_at := 0, updated_at := 0 }

/-- A one-item registry holding `sampleItem`. -/
def sampleDb : Db := [("i", sampleItem)]

/-- The patch `{"price": 2}`. -/
def pricePatch : Payload := { Payload.empty with price := some (some 2) }

/-- `sampleItem` after `pricePatch` at time 5. -/
def updatedSample : Item :=
  { id := "i", name := some "a", description := none, price := some 2,
    tax := none, tags := some [], created_at := 0, updated_at := 5 }

/-- The patch `{"price": null}`: an explicit JSON null for a required
field. -/
def nullPricePatch : Payload := { Payload.empty with price := some none }

/-- The patch `{"name": null}`. -/
def nullNamePatch : Payload := { Payload.empty with name := some none }

/-- The invalid patch `{"price": -1}`. -/
def badPricePatch : Payload := { Payload.empty with price := some (some (-1)) }

/-- The corrupted object stored after `{"price": null}` hits `sampleItem`
at time 1: its `price` attribute really is `None`. -/
def corruptSample : Item :=
  { id := "i", name := some "a", description := none, price := none,
    tax := none, tags := some [], created_at := 0, updated_at := 1 }

/-! ### Lemmas about the database primitives -/

theorem dbFind_dbInsert_self (db : Db) (k : String) (it : Item) :
    dbFind (dbInsert db k it) k = some it := by
  induction db with
  | nil => simp [dbInsert, dbFind]
  | cons hd tl ih =>
    obtain ⟨k', it'⟩ := hd
    by_cases h : k' = k <;> simp [dbInsert, dbFind, h, ih]

theorem dbFind_dbInsert_ne (db : Db) (k j : String) (it : Item) (h : j ≠ k) :
    dbFind (dbInsert db k it) j = dbFind db j := by
  have h' : ¬ k = j := fun e => h e.symm
  induction db with
  | nil => simp [dbInsert, dbFind, h']
  | cons hd tl ih =>
    obtain ⟨k', it'⟩ := hd
    by_cases hk : k' = k
    · subst hk
      simp [dbInsert, dbFind, h']
    · simp [dbInsert, dbFind, hk, ih]

theorem dbFind_dbErase_ne (db : Db) (k j : String) (h : j ≠ k) :
    dbFind (dbErase db k) j = dbFind db j := by
  have h' : ¬ k = j := fun e => h e.symm
  induction db with
  | nil => simp [dbErase]
  | cons hd tl ih =>
    obtain ⟨k', it'⟩ := hd
    by_cases hk : k' = k
    · subst hk
      simp [dbErase, dbFind, h']
    · simp [dbErase, dbFind, hk, ih]

theorem dbFind_some_mem {db : Db} {k : String} {it : Item}
    (h : dbFind db k = some it) : (k, it) ∈ db := by
  induction db with
  | nil => simp [dbFind] at h
  | cons hd tl ih =>
    obtain ⟨k', it'⟩ := hd
    by_cases hk : k' = k
    · subst hk
      simp [dbFind] at h
      simp [h]
    · simp [dbFind, hk] at h
      exact List.mem_cons_of_mem _ (ih h)

theorem mem_dbInsert {db : Db} {k j : String} {it x : Item}
    (h : (j, x) ∈ dbInsert db k it) : (j = k ∧ x = it) ∨ (j, x) ∈ db := by
  induction db with
  | nil =>
    simp [dbInsert] at h
    exact Or.inl ⟨h.1, h.2⟩
  | cons hd tl ih =>
    obtain ⟨k', it'⟩ := hd
    by_cases hk : k' = k
    · subst hk
      simp [dbInsert] at h
      rcases h with ⟨h1, h2⟩ | h
      · exact Or.inl ⟨h1, h2⟩
      · exact Or.inr (List.mem_cons_of_mem _ h)
    · simp [dbInsert, hk] at h
      rcases h with ⟨h1, h2⟩ | h
      · exact Or.inr (by simp [h1, h2])
      · rcases ih h with h' | h'
        · exact Or.inl h'
        · exact Or.inr (List.mem_cons_of_mem _ h')

theorem dbErase_sublist (db : Db) (k : String) : (dbErase db k).Sublist db := by
  induction db with
  | nil => simp [dbErase]
  | cons hd tl ih =>
    obtain ⟨k', it'⟩ := hd
    by_cases hk : k' = k
    · simp [dbErase, hk, List.sublist_cons_self]
    · simpa [dbErase, hk] using ih.cons₂ (k', it')

theorem dbKeys_dbInsert (db : Db) (k : String) (it : Item) :
    dbKeys (dbInsert db k it) =
      if k ∈ dbKeys db then dbKeys db else dbKeys db ++ [k] := by
  induction db with
  | nil => simp [dbInsert, dbKeys]
  | cons hd tl ih =>
    obtain ⟨k', it'⟩ := hd
    by_cases hk : k' = k
    · subst hk
      simp [dbInsert, dbKeys]
    · simp only [dbInsert, if_neg hk, dbKeys, List.map_cons] at ih ⊢
      by_cases hmem : k ∈ List.map Prod.fst tl
      · rw [if_pos hmem] at ih
        rw [ih, if_pos (List.mem_cons_of_mem _ hmem)]
      · rw [if_neg hmem] at ih
        have hnot : ¬ k ∈ k' :: List.map Prod.fst tl := by
          rw [List.mem_cons]
          rintro (e | e)
          · exact hk e.symm
          · exact hmem e
        rw [ih, if_neg hnot, List.cons_append]

theorem dbKeys_nodup_dbInsert {db : Db} (k : String) (it : Item)
    (h : (dbKeys db).Nodup) : (dbKeys (dbInsert db k it)).Nodup := by
  rw [dbKeys_dbInsert]
  by_cases hmem : k ∈ dbKeys db
  · simpa [hmem] using h
  · simp only [hmem, if_false]
    rw [List.nodup_append]
    refine ⟨h, List.nodup_singleton k, ?_⟩
    intro a ha hb
    rw [List.mem_singleton] at hb
    subst hb
    exact hmem ha

theorem dbKeys_nodup_dbErase {db : Db} (k : String)
    (h : (dbKeys db).Nodup) : (dbKeys (dbErase db k)).Nodup :=
  ((dbErase_sublist db k).map Prod.fst).nodup h

theorem dbFind_dbErase_self {db : Db} (k : String)
    (h : (dbKeys db).Nodup) : dbFind (dbErase db k) k = none := by
  induction db with
  | nil => simp [dbErase, dbFind]
  | cons hd tl ih =>
    obtain ⟨k', it'⟩ := hd
    simp only [dbKeys, List.map_cons, List.nodup_cons] at h
    by_cases hk : k' = k
    · subst hk
      simp only [dbErase, if_pos rfl]
      cases hf : dbFind tl k' with
      | none => exact hf
      | some it =>
        exact absurd (List.mem_map_of_mem Prod.fst (dbFind_some_mem hf)) h.1
    · simpa [dbErase, dbFind, hk] using ih h.2

/-! ### Lemmas about the validators -/

theorem validateCreate_ok_inv {p : Payload} {f : CreateFields}
    (h : validateCreate p = .ok f) :
    p.name = some (some f.name) ∧ p.price = some (some f.price) ∧
    f.description = p.description.join ∧ f.tax = p.tax.join ∧
    f.tags = (p.tags.join).getD [] ∧ createErrors p = [] := by
  unfold validateCreate at h
  split at h
  case h_1 s q hn hp =>
    split at h
    case isTrue he =>
      cases h
      exact ⟨hn, hp, rfl, rfl, rfl, he⟩
    case isFalse he => cases h
  case h_2 => cases h

theorem createErrors_nil_inv {p : Payload} (h : createErrors p = []) :
    (∃ s, p.name = some (some s) ∧ nameOk s = true) ∧
    (∃ q, p.price = some (some q) ∧ priceOk q = true) ∧
    (∀ t, p.tax = some (some t) → taxOk t = true) ∧ p.tags ≠ some none := by
  simp only [createErrors, List.append_eq_nil] at h
  obtain ⟨⟨⟨h1, h2⟩, h3⟩, h4⟩ := h
  refine ⟨?_, ?_, ?_, ?_⟩
  · rcases e : p.name with _ | (_ | s) <;> rw [e] at h1
    · simp at h1
    · simp at h1
    · refine ⟨s, rfl, ?_⟩
      by_cases hv : nameOk s = true
      · exact hv
      · simp [hv] at h1
  · rcases e : p.price with _ | (_ | q) <;> rw [e] at h2
    · simp at h2
    · simp at h2
    · refine ⟨q, rfl, ?_⟩
      by_cases hv : priceOk q = true
      · exact hv
      · simp [hv] at h2
  · intro t ht
    rw [ht] at h3
    by_cases hv : taxOk t = true
    · exact hv
    · simp [hv] at h3
  · intro ht
    rw [ht] at h4
    simp at h4

theorem validateCreate_nil_ok {p : Payload} (h : createErrors p = []) :
    ∃ f, validateCreate p = .ok f := by
  cases hv : validateCreate p with
  | ok f => exact ⟨f, rfl⟩
  | error e =>
    exfalso
    obtain ⟨⟨s, hs, -⟩, ⟨q, hq, -⟩, -, -⟩ := createErrors_nil_inv h
    unfold validateCreate at hv
    split at hv
    · rw [if_pos h] at hv
      cases hv
    case h_2 hn =>
      exact hn s q hs hq

theorem validateCreate_error_iff {p : Payload} :
    (∃ errs, validateCreate p = .error errs) ↔ createErrors p ≠ [] := by
  constructor
  · rintro ⟨errs, h⟩ hnil
    obtain ⟨f, hf⟩ := validateCreate_nil_ok hnil
    rw [hf] at h
    cases h
  · intro hne
    unfold validateCreate
    split
    · rw [if_neg hne]
      exact ⟨_, rfl⟩
    · exact ⟨_, rfl⟩

theorem updateErrors_nil_inv {p : Payload} (h : updateErrors p = []) :
    (∀ s, p.name = some (some s) → nameOk s = true) ∧
    (∀ q, p.price = some (some q) → priceOk q = true) ∧
    (∀ t, p.tax = some (some t) → taxOk t = true) := by
  simp only [updateErrors, List.append_eq_nil] at h
  obtain ⟨⟨h1, h2⟩, h3⟩ := h
  refine ⟨?_, ?_, ?_⟩
  · intro s hs
    rw [hs] at h1
    by_cases hv : nameOk s = true
    · exact hv
    · simp [hv] at h1
  · intro q hq
    rw [hq] at h2
    by_cases hv : priceOk q = true
    · exact hv
    · simp [hv] at h2
  · intro t ht
    rw [ht] at h3
    by_cases hv : taxOk t = true
    · exact hv
    · simp [hv] at h3

theorem createItem_schemaOk {p : Payload} {f : CreateFields}
    (h : validateCreate p = .ok f) (nid : String) (now : ℕ) :
    itemSchemaOk
      { id := nid, name := some f.name, description := f.description,
        price := some f.price, tax := f.tax, tags := some f.tags,
        created_at := now, updated_at := now } = true := by
  obtain ⟨hn, hp, -, htax, -, herr⟩ := validateCreate_ok_inv h
  obtain ⟨⟨s, hs, hns⟩, ⟨q, hq, hqs⟩, ct, -⟩ := createErrors_nil_inv herr
  rw [hn] at hs
  rw [hp] at hq
  simp only [Option.some.injEq] at hs hq
  simp only [itemSchemaOk, Bool.and_eq_true, Option.isSome_some, and_true]
  refine ⟨⟨hs ▸ hns, hq ▸ hqs⟩, ?_⟩
  rcases e : p.tax with _ | (_ | t) <;> rw [e] at htax <;> simp [htax]
  exact ct t e

/-- A successful null-free patch keeps a schema-conformant item
schema-conformant. -/
theorem applyPatch_schemaOk {it : Item} {p : Payload} {now : ℕ}
    (hok : itemSchemaOk it = true) (hnf : patchNullFree p = true)
    (he : updateErrors p = []) :
    itemSchemaOk (applyPatch it p now) = true := by
  obtain ⟨un, up, ut⟩ := updateErrors_nil_inv he
  simp only [patchNullFree, Bool.and_eq_true, decide_eq_true_eq] at hnf
  obtain ⟨⟨fn, fp⟩, ftg⟩ := hnf
  simp only [itemSchemaOk, Bool.and_eq_true] at hok
  obtain ⟨⟨⟨hname, hprice⟩, htax⟩, htags⟩ := hok
  simp only [itemSchemaOk, applyPatch, Bool.and_eq_true]
  refine ⟨⟨⟨?_, ?_⟩, ?_⟩, ?_⟩
  · rcases e : p.name with _ | (_ | s)
    · simpa using hname
    · exact absurd e fn
    · simpa using un s e
  · rcases e : p.price with _ | (_ | q)
    · simpa using hprice
    · exact absurd e fp
    · simpa using up q e
  · rcases e : p.tax with _ | (_ | t)
    · simpa using htax
    · simp
    · simpa using ut t e
  · rcases e : p.tags with _ | (_ | l)
    · simpa using htags
    · exact absurd e ftg
    · simp

/-! ### Inversion lemmas for the handlers -/

theorem create_item_ok_inv {db : Db} {nid : String} {now : ℕ} {p : Payload}
    {it : Item} {db' : Db} (h : create_item db nid now p = .ok (it, db')) :
    ∃ f, validateCreate p = .ok f ∧
      it = { id := nid, name := some f.name, description := f.description,
             price := some f.price, tax := f.tax, tags := some f.tags,
             created_at := now, updated_at := now } ∧
      db' = dbInsert db nid it := by
  unfold create_item at h
  split at h
  · cases h
  case h_2 f hv =>
    simp only [Except.ok.injEq, Prod.mk.injEq] at h
    exact ⟨f, hv, h.1.symm, by rw [h.2.symm, h.1]⟩

theorem create_item_error_inv {db : Db} {nid : String} {now : ℕ} {p : Payload}
    {e : ApiError} (h : create_item db nid now p = .error e) :
    ∃ errs, validateCreate p = .error errs ∧ e = .validation errs := by
  unfold create_item at h
  split at h
  case h_1 errs hv =>
    cases h
    exact ⟨errs, hv, rfl⟩
  · cases h

theorem update_item_ok_inv {db : Db} {i : String} {now : ℕ} {p : Payload}
    {it' : Item} {db' : Db} (h : update_item db i now p = .ok (it', db')) :
    updateErrors p = [] ∧ ∃ it0, dbFind db i = some it0 ∧
      it' = applyPatch it0 p now ∧ db' = dbInsert db i it' := by
  unfold update_item at h
  split at h
  · cases h
  case isFalse hne =>
    have he : updateErrors p = [] := not_not.mp hne
    refine ⟨he, ?_⟩
    split at h
    · cases h
    case h_2 it0 hf =>
      simp only [Except.ok.injEq, Prod.mk.injEq] at h
      exact ⟨it0, hf, h.1.symm, by rw [h.2.symm, h.1]⟩

theorem update_item_error_inv {db : Db} {i : String} {now : ℕ} {p : Payload}
    {e : ApiError} (h : update_item db i now p = .error e) :
    (updateErrors p ≠ [] ∧ e = .validation (updateErrors p)) ∨
    (updateErrors p = [] ∧ dbFind db i = none ∧
      e = .notFound (notFoundMsg i)) := by
  unfold update_item at h
  split at h
  case isTrue hne =>
    cases h
    exact Or.inl ⟨hne, rfl⟩
  case isFalse hne =>
    refine Or.inr ⟨not_not.mp hne, ?_⟩
    split at h
    case h_1 hf =>
      cases h
      exact ⟨hf, rfl⟩
    · cases h

theorem delete_item_ok_inv {db : Db} {i : String} {db' : Db}
    (h : delete_item db i = .ok db') :
    (∃ it, dbFind db i = some it) ∧ db' = dbErase db i := by
  unfold delete_item at h
  split at h
  · cases h
  case h_2 it hf =>
    cases h
    exact ⟨⟨it, hf⟩, rfl⟩

/-! ### The reachability invariant -/

theorem dbInvAux_mono {db : Db} {t t' : ℕ} (h : dbInvAux db t) (ht : t ≤ t') :
    dbInvAux db t' := by
  obtain ⟨hnd, hmem⟩ := h
  refine ⟨hnd, fun k it hk => ?_⟩
  obtain ⟨h1, h2, h3, h4⟩ := hmem k it hk
  exact ⟨h1, h2, h3, h4.trans ht⟩

theorem dbInvAux_step {db : Db} {t t' : ℕ} {op : Op} (h : dbInvAux db t)
    (ht : t ≤ t') (hs : opSafe op = true) :
    dbInvAux (applyOp db t' op) t' := by
  obtain ⟨hnd, hmem⟩ := h
  cases op with
  | create nid p =>
    simp only [applyOp]
    cases hc : create_item db nid t' p with
    | error e => exact dbInvAux_mono ⟨hnd, hmem⟩ ht
    | ok pr =>
      obtain ⟨it, db'⟩ := pr
      obtain ⟨f, hv, hit, hdb⟩ := create_item_ok_inv hc
      subst hdb
      refine ⟨dbKeys_nodup_dbInsert nid it hnd, fun k x hk => ?_⟩
      rcases mem_dbInsert hk with ⟨hke, hxe⟩ | hold
      · subst hke hxe
        rw [hit]
        exact ⟨rfl, createItem_schemaOk hv _ _, le_refl _, le_refl _⟩
      · obtain ⟨h1, h2, h3, h4⟩ := hmem k x hold
        exact ⟨h1, h2, h3, h4.trans ht⟩
  | update i p =>
    simp only [applyOp]
    cases hu : update_item db i t' p with
    | error e => exact dbInvAux_mono ⟨hnd, hmem⟩ ht
    | ok pr =>
      obtain ⟨it', db'⟩ := pr
      obtain ⟨he, it0, hf, hit, hdb⟩ := update_item_ok_inv hu
      subst hdb
      obtain ⟨g1, g2, g3, g4⟩ := hmem i it0 (dbFind_some_mem hf)
      refine ⟨dbKeys_nodup_dbInsert i it' hnd, fun k x hk => ?_⟩
      rcases mem_dbInsert hk with ⟨hke, hxe⟩ | hold
      · subst hke hxe
        rw [hit]
        refine ⟨g1, applyPatch_schemaOk g2 hs he, ?_, le_refl _⟩
        show it0.created_at ≤ t'
        exact (g3.trans g4).trans ht
      · obtain ⟨h1, h2, h3, h4⟩ := hmem k x hold
        exact ⟨h1, h2, h3, h4.trans ht⟩
  | delete i =>
    simp only [applyOp]
    cases hd : delete_item db i with
    | error e => exact dbInvAux_mono ⟨hnd, hmem⟩ ht
    | ok db' =>
      obtain ⟨-, hdb⟩ := delete_item_ok_inv hd
      subst hdb
      refine ⟨dbKeys_nodup_dbErase i hnd, fun k x hk => ?_⟩
      obtain ⟨h1, h2, h3, h4⟩ := hmem k x ((dbErase_sublist db i).subset hk)
      exact ⟨h1, h2, h3, h4.trans ht⟩

/-- Every state reachable through null-free patches satisfies the full
invariant. -/
theorem reachSafe_dbInvAux {db : Db} {t : ℕ} (h : ReachSafe db t) :
    dbInvAux db t := by
  induction h with
  | init => exact ⟨List.nodup_nil, by simp⟩
  | step hr hle hsafe ih => exact dbInvAux_step ih hle hsafe

/-! ### Further helper lemmas -/

theorem validateCreate_error_inv {p : Payload} {errs : List String}
    (h : validateCreate p = .error errs) : errs = createErrors p := by
  unfold validateCreate at h
  split at h
  · split at h
    · cases h
    · injection h with h
      exact h.symm
  · injection h with h
    exact h.symm

theorem create_item_error_of_errors {db : Db} {nid : String} {now : ℕ}
    {p : Payload} (h : createErrors p ≠ []) :
    create_item db nid now p = .error (.validation (createErrors p)) := by
  obtain ⟨errs, he⟩ := validateCreate_error_iff.mpr h
  have := validateCreate_error_inv he
  subst this
  simp [create_item, he]

theorem createErrors_eq_nil {p : Payload}
    (h1 : ∃ s, p.name = some (some s) ∧ nameOk s = true)
    (h2 : ∃ q, p.price = some (some q) ∧ priceOk q = true)
    (h3 : ∀ t, p.tax = some (some t) → taxOk t = true)
    (h4 : p.tags ≠ some none) : createErrors p = [] := by
  obtain ⟨s, hs, hns⟩ := h1
  obtain ⟨q, hq, hqs⟩ := h2
  have htax : (match p.tax with
      | some (some t) => if taxOk t then [] else ["tax"]
      | _ => []) = ([] : List String) := by
    rcases et : p.tax with _ | (_ | t)
    · rfl
    · rfl
    · simp [h3 t et]
  have htags : (match p.tags with
      | some none => ["tags"]
      | _ => []) = ([] : List String) := by
    rcases eg : p.tags with _ | (_ | l)
    · rfl
    · exact absurd eg h4
    · rfl
  unfold createErrors
  rw [hs, hq, htax, htags]
  simp [hns, hqs]

theorem name_mem_createErrors {p : Payload} {s : String}
    (hs : p.name = some (some s)) (hbad : ¬ nameOk s = true) :
    "name" ∈ createErrors p := by
  unfold createErrors
  rw [hs]
  simp [hbad]

theorem price_mem_createErrors {p : Payload} {q : ℚ}
    (hq : p.price = some (some q)) (hbad : ¬ priceOk q = true) :
    "price" ∈ createErrors p := by
  unfold createErrors
  rw [hq]
  simp [hbad]

theorem dbFind_of_mem {db : Db} {k : String} {it : Item}
    (hnd : (dbKeys db).Nodup) (h : (k, it) ∈ db) : dbFind db k = some it := by
  induction db with
  | nil => simp at h
  | cons hd tl ih =>
    obtain ⟨k', x⟩ := hd
    simp only [dbKeys, List.map_cons, List.nodup_cons] at hnd
    rcases List.mem_cons.mp h with he | hm
    · cases he
      simp [dbFind]
    · by_cases hk : k' = k
      · subst hk
        exact absurd (List.mem_map_of_mem Prod.fst hm) hnd.1
      · simpa [dbFind, hk] using ih hnd.2 hm

theorem dbFind_isSome_of_mem {db : Db} {k : String} {it : Item}
    (h : (k, it) ∈ db) : (dbFind db k).isSome = true := by
  induction db with
  | nil => simp at h
  | cons hd tl ih =>
    obtain ⟨k', x⟩ := hd
    rcases List.mem_cons.mp h with he | hm
    · cases he
      simp [dbFind]
    · by_cases hk : k' = k <;> simp [dbFind, hk, ih hm]

theorem update_applyOp_created_at (db : Db) (i : String) (now : ℕ)
    (p : Payload) (j : String) :
    (dbFind (applyOp db now (.update i p)) j).map Item.created_at =
      (dbFind db j).map Item.created_at := by
  simp only [applyOp]
  cases hu : update_item db i now p with
  | error e => rfl
  | ok pr =>
    obtain ⟨it', db'⟩ := pr
    obtain ⟨-, it0, hf, hit, hdb⟩ := update_item_ok_inv hu
    subst hdb
    show (dbFind (dbInsert db i it') j).map Item.created_at =
      (dbFind db j).map Item.created_at
    by_cases hj : j = i
    · subst hj
      rw [dbFind_dbInsert_self, hf, hit]
      rfl
    · rw [dbFind_dbInsert_ne db i j it' hj]

theorem applyOps_updates_created_at (reqs : List (ℕ × Op)) :
    ∀ db j, allUpdates reqs = true →
      (dbFind (applyOps db reqs) j).map Item.created_at =
        (dbFind db j).map Item.created_at := by
  induction reqs with
  | nil =>
    intro db j _
    rfl
  | cons r rest ih =>
    intro db j hupd
    obtain ⟨tr, opr⟩ := r
    simp only [allUpdates, List.all_cons, Bool.and_eq_true] at hupd
    obtain ⟨h1, h2⟩ := hupd
    have hrest : allUpdates rest = true := h2
    cases opr with
    | create nid p => simp at h1
    | delete i => simp at h1
    | update i p =>
      have hstep :
          applyOps db ((tr, Op.update i p) :: rest) =
            applyOps (applyOp db tr (.update i p)) rest := rfl
      rw [hstep, ih (applyOp db tr (.update i p)) j hrest]
      exact update_applyOp_created_at db i tr p j

/-! ### The claims -/

/-- C1: For every stored item and every partial update input the service
accepts, Update(id, patch) leaves every field absent from the patch at its
prior value, never touches `created_at`, sets `updated_at` to the current
time, and returns the resulting full item, which equals the item
subsequently stored under that id. -/
theorem C1_update_merge (db : Db) (i : String) (now : ℕ) (p : Payload)
    (it it' : Item) (db' : Db)
    (hfound : dbFind db i = some it)
    (hok : update_item db i now p = .ok (it', db')) :
    (p.name = none → it'.name = it.name) ∧
    (p.description = none → it'.description = it.description) ∧
    (p.price = none → it'.price = it.price) ∧
    (p.tax = none → it'.tax = it.tax) ∧
    (p.tags = none → it'.tags = it.tags) ∧
    it'.created_at = it.created_at ∧
    it'.updated_at = now ∧
    dbFind db' i = some it' := by
  obtain ⟨he, it0, hf0, hit, hdb⟩ := update_item_ok_inv hok
  rw [hfound] at hf0
  injection hf0 with hf0
  subst hf0
  subst hdb
  subst hit
  refine ⟨?_, ?_, ?_, ?_, ?_, rfl, rfl, dbFind_dbInsert_self db i _⟩
  all_goals intro hnone
  all_goals simp [applyPatch, hnone]

/-- Witness for C1: patch `{"price": 2}` on `sampleDb` at time 5. -/
theorem C1_update_merge_witness :
    dbFind sampleDb "i" = some sampleItem ∧
    update_item sampleDb "i" 5 pricePatch =
      .ok (updatedSample, [("i", updatedSample)]) ∧
    ((pricePatch.name = none → updatedSample.name = sampleItem.name) ∧
     (pricePatch.description = none →
       updatedSample.description = sampleItem.description) ∧
     (pricePatch.price = none → updatedSample.price = sampleItem.price) ∧
     (pricePatch.tax = none → updatedSample.tax = sampleItem.tax) ∧
     (pricePatch.tags = none → updatedSample.tags = sampleItem.tags) ∧
     updatedSample.created_at = sampleItem.created_at ∧
     updatedSample.updated_at = 5 ∧
     dbFind [("i", updatedSample)] "i" = some updatedSample) :=
  ⟨by decide, by decide,
   C1_update_merge sampleDb "i" 5 pricePatch sampleItem updatedSample
     [("i", updatedSample)] (by decide) (by decide)⟩

/-- C4: Creating with a body passing validation and a fresh, non-empty
generated id returns an item whose id is that fresh id (non-empty, absent
from the registry), whose `created_at` equals `updated_at` equals the
current time, whose fields equal the input with `tags` defaulting to `[]`,
and which is stored in the registry under its id.  `str(uuid.uuid4())` is
modelled by the `nid` argument; `hfresh` and `hne` record its contract. -/
theorem C4_create_ok (db : Db) (nid : String) (now : ℕ) (p : Payload)
    (it : Item) (db' : Db)
    (hfresh : dbFind db nid = none) (hne : nid ≠ "")
    (hok : create_item db nid now p = .ok (it, db')) :
    it.id = nid ∧ it.id ≠ "" ∧ dbFind db it.id = none ∧
    it.created_at = now ∧ it.updated_at = now ∧
    it.name = p.name.join ∧ it.description = p.description.join ∧
    it.price = p.price.join ∧ it.tax = p.tax.join ∧
    (p.tags = none → it.tags = some []) ∧
    (∀ l, p.tags = some (some l) → it.tags = some l) ∧
    dbFind db' it.id = some it := by
  obtain ⟨f, hv, hit, hdb⟩ := create_item_ok_inv hok
  obtain ⟨hn, hp, hd, htax, htg, -⟩ := validateCreate_ok_inv hv
  subst hdb
  subst hit
  refine ⟨rfl, hne, hfresh, rfl, rfl, ?_, ?_, ?_, ?_, ?_, ?_,
    dbFind_dbInsert_self db nid _⟩
  · rw [hn]
    rfl
  · exact hd
  · rw [hp]
    rfl
  · exact htax
  · intro h
    rw [htg, h]
    rfl
  · intro l h
    rw [htg, h]
    rfl

/-- Witness for C4: `{"name": "a", "price": 1}` on the empty registry. -/
theorem C4_create_ok_witness :
    dbFind ([] : Db) "i" = none ∧ "i" ≠ "" ∧
    create_item [] "i" 0 samplePayload = .ok (sampleItem, sampleDb) ∧
    (sampleItem.id = "i" ∧ sampleItem.id ≠ "" ∧
     dbFind ([] : Db) sampleItem.id = none ∧
     sampleItem.created_at = 0 ∧ sampleItem.updated_at = 0 ∧
     sampleItem.name = samplePayload.name.join ∧
     sampleItem.description = samplePayload.description.join ∧
     sampleItem.price = samplePayload.price.join ∧
     sampleItem.tax = samplePayload.tax.join ∧
     (samplePayload.tags = none → sampleItem.tags = some []) ∧
     (∀ l, samplePayload.tags = some (some l) → sampleItem.tags = some l) ∧
     dbFind sampleDb sampleItem.id = some sampleItem) :=
  ⟨by decide, by decide, by decide,
   C4_create_ok [] "i" 0 samplePayload sampleItem sampleDb
     (by decide) (by decide) (by decide)⟩

/-- C7: `created_at` is set once at creation: no sequence of update
requests — successful or failing, on any id — ever changes any stored
item's `created_at`. -/
theorem C7_created_at_immutable (db : Db) (reqs : List (ℕ × Op))
    (j : String) (hupd : allUpdates reqs = true) :
    (dbFind (applyOps db reqs) j).map Item.created_at =
      (dbFind db j).map Item.created_at :=
  applyOps_updates_created_at reqs db j hupd

/-- Witness for C7: one successful and one failing update on `sampleDb`. -/
theorem C7_created_at_immutable_witness :
    allUpdates [(5, Op.update "i" pricePatch),
                (6, Op.update "zzz" pricePatch)] = true ∧
    (dbFind (applyOps sampleDb
        [(5, Op.update "i" pricePatch),
         (6, Op.update "zzz" pricePatch)]) "i").map Item.created_at =
      (dbFind sampleDb "i").map Item.created_at :=
  ⟨by decide,
   C7_created_at_immutable sampleDb
     [(5, Op.update "i" pricePatch), (6, Op.update "zzz" pricePatch)]
     "i" (by decide)⟩

/-- C8: List always succeeds, is pure, and returns exactly the stored
items — the registry's values in insertion order, one per live id, no
omissions and no extras. -/
theorem C8_list_exact (db : Db) (hnd : (dbKeys db).Nodup) :
    read_items db = db.map Prod.snd ∧
    (∀ k it, dbFind db k = some it → it ∈ read_items db) ∧
    (∀ it, it ∈ read_items db → ∃ k, dbFind db k = some it) ∧
    (read_items db).length = db.length := by
  refine ⟨rfl, ?_, ?_, by simp [read_items]⟩
  · intro k it h
    exact List.mem_map_of_mem Prod.snd (dbFind_some_mem h)
  · intro it h
    obtain ⟨⟨k, x⟩, hm, he⟩ := List.mem_map.mp h
    cases he
    exact ⟨k, dbFind_of_mem hnd hm⟩

/-- Witness for C8 at the one-item registry. -/
theorem C8_list_exact_witness :
    (dbKeys sampleDb).Nodup ∧
    (read_items sampleDb = sampleDb.map Prod.snd ∧
     (∀ k it, dbFind sampleDb k = some it → it ∈ read_items sampleDb) ∧
     (∀ it, it ∈ read_items sampleDb → ∃ k, dbFind sampleDb k = some it) ∧
     (read_items sampleDb).length = sampleDb.length) :=
  ⟨by decide, C8_list_exact sampleDb (by decide)⟩

/-- C9: frame property — each operation touches only its own id: create
adds at most the one entry at the generated id (the key list grows by at
most that key, at the end), update rewrites only the entry at its id, delete
removes only the entry at its id; every other id maps to the same item
before and after. -/
theorem C9_frame (db : Db) (nid i : String) (now : ℕ) (p : Payload)
    (j : String) :
    (∀ it db', create_item db nid now p = .ok (it, db') → j ≠ nid →
      dbFind db' j = dbFind db j) ∧
    (∀ it db', create_item db nid now p = .ok (it, db') →
      dbKeys db' = if nid ∈ dbKeys db then dbKeys db else dbKeys db ++ [nid]) ∧
    (∀ it' db', update_item db i now p = .ok (it', db') → j ≠ i →
      dbFind db' j = dbFind db j) ∧
    (∀ db', delete_item db i = .ok db' → j ≠ i →
      dbFind db' j = dbFind db j) := by
  refine ⟨?_, ?_, ?_, ?_⟩
  · intro it db' hok hj
    obtain ⟨f, hv, hit, hdb⟩ := create_item_ok_inv hok
    subst hdb
    exact dbFind_dbInsert_ne db nid j it hj
  · intro it db' hok
    obtain ⟨f, hv, hit, hdb⟩ := create_item_ok_inv hok
    subst hdb
    exact dbKeys_dbInsert db nid it
  · intro it' db' hok hj
    obtain ⟨he, it0, hf, hit, hdb⟩ := update_item_ok_inv hok
    subst hdb
    exact dbFind_dbInsert_ne db i j it' hj
  · intro db' hok hj
    obtain ⟨-, hdb⟩ := delete_item_ok_inv hok
    subst hdb
    exact dbFind_dbErase_ne db i j hj

/-- C5: Create rejects any body whose present price is 0 or negative and any
body whose present name is empty or has 101 characters, the error listing
the violated field; bodies that are otherwise valid succeed with price 0.01,
or with a 100-character name; a rejected create leaves the registry
unchanged. -/
theorem C5_create_validation (db : Db) (nid : String) (now : ℕ)
    (p : Payload) :
    (∀ q, p.price = some (some q) → q ≤ 0 →
      create_item db nid now p = .error (.validation (createErrors p)) ∧
      "price" ∈ createErrors p) ∧
    (∀ s, p.name = some (some s) → (s = "" ∨ s.length = 101) →
      create_item db nid now p = .error (.validation (createErrors p)) ∧
      "name" ∈ createErrors p) ∧
    ((∃ s, p.name = some (some s) ∧ nameOk s = true) →
     (∀ t, p.tax = some (some t) → taxOk t = true) →
     p.tags ≠ some none →
     p.price = some (some (1/100 : ℚ)) →
     (create_item db nid now p).isOk = true) ∧
    ((∃ s, p.name = some (some s) ∧ s.length = 100) →
     (∃ q, p.price = some (some q) ∧ priceOk q = true) →
     (∀ t, p.tax = some (some t) → taxOk t = true) →
     p.tags ≠ some none →
     (create_item db nid now p).isOk = true) ∧
    (∀ e, create_item db nid now p = .error e →
      applyOp db now (.create nid p) = db) := by
  refine ⟨?_, ?_, ?_, ?_, ?_⟩
  · intro q hq hle
    have hbad : ¬ priceOk q = true := by
      simp only [priceOk, decide_eq_true_eq]
      exact not_lt.mpr hle
    have hmem := price_mem_createErrors hq hbad
    have hne : createErrors p ≠ [] := by
      intro h0
      rw [h0] at hmem
      simp at hmem
    exact ⟨create_item_error_of_errors hne, hmem⟩
  · intro s hs hcase
    have hbad : ¬ nameOk s = true := by
      rcases hcase with rfl | hlen
      · decide
      · simp [nameOk, hlen]
    have hmem := name_mem_createErrors hs hbad
    have hne : createErrors p ≠ [] := by
      intro h0
      rw [h0] at hmem
      simp at hmem
    exact ⟨create_item_error_of_errors hne, hmem⟩
  · intro h1 h2 h3 hp
    have hq : priceOk (1/100 : ℚ) = true := by simp [priceOk]
    have hnil := createErrors_eq_nil h1 ⟨_, hp, hq⟩ h2 h3
    obtain ⟨f, hf⟩ := validateCreate_nil_ok hnil
    unfold create_item
    rw [hf]
    rfl
  · intro h1 h2 h3 h4
    obtain ⟨s, hs, hlen⟩ := h1
    have hns : nameOk s = true := by simp [nameOk, hlen]
    have hnil := createErrors_eq_nil ⟨s, hs, hns⟩ h2 h3 h4
    obtain ⟨f, hf⟩ := validateCreate_nil_ok hnil
    unfold create_item
    rw [hf]
    rfl
  · intro e h
    simp [applyOp, h]

/-- C10: callers cannot set or alter `id`, `created_at`, or `updated_at`
through the Create or Update bodies: caller-supplied values for those keys
(dropped by pydantic as non-model fields) never change a handler's result,
and the id and timestamps of the stored and returned item are exactly the
service-assigned ones. -/
theorem C10_server_side_fields (db : Db) (nid i : String) (now : ℕ)
    (p : Payload) (x : Option String) (y z : Option ℕ) :
    create_item db nid now
        { p with extra_id := x, extra_created_at := y,
                 extra_updated_at := z } =
      create_item db nid now p ∧
    update_item db i now
        { p with extra_id := x, extra_created_at := y,
                 extra_updated_at := z } =
      update_item db i now p ∧
    (∀ it db', create_item db nid now p = .ok (it, db') →
      it.id = nid ∧ it.created_at = now ∧ it.updated_at = now ∧
      dbFind db' nid = some it) ∧
    (∀ it0 it' db', dbFind db i = some it0 →
      update_item db i now p = .ok (it', db') →
      it'.id = it0.id ∧ it'.created_at = it0.created_at ∧
      it'.updated_at = now ∧ dbFind db' i = some it') := by
  obtain ⟨pn, pd, pp, pt, pg, pe1, pe2, pe3⟩ := p
  refine ⟨rfl, rfl, ?_, ?_⟩
  · intro it db' hok
    obtain ⟨f, hv, hit, hdb⟩ := create_item_ok_inv hok
    subst hdb
    subst hit
    exact ⟨rfl, rfl, rfl, dbFind_dbInsert_self db nid _⟩
  · intro it0 it' db' hf0 hok
    obtain ⟨he, it1, hf1, hit, hdb⟩ := update_item_ok_inv hok
    rw [hf0] at hf1
    injection hf1 with hf1
    subst hf1
    subst hdb
    subst hit
    exact ⟨rfl, rfl, rfl, dbFind_dbInsert_self db i _⟩

/-- C2 counterexample: the invariant claim fails as stated.  From the empty
registry, create `{"name": "a", "price": 1}` (id "i", time 0), then update
it with `{"price": null}` (time 1): the resulting state is reachable, yet
the stored item has `price = None` and violates the Item schema. -/
theorem C2_counterexample :
    Reach (applyOp (applyOp [] 0 (.create "i" samplePayload)) 1
        (.update "i" nullPricePatch)) 1 ∧
    dbFind (applyOp (applyOp [] 0 (.create "i" samplePayload)) 1
        (.update "i" nullPricePatch)) "i" = some corruptSample ∧
    itemSchemaOk corruptSample = false :=
  ⟨Reach.step (Reach.step Reach.init (Nat.le_refl 0)) (Nat.zero_le 1),
   by decide, by decide⟩

/-- C2 amended: in every state reachable by create/update/delete requests in
which no update patch supplies an explicit JSON null for `name`, `price`, or
`tags`, every stored item fully satisfies the Item schema, has
`created_at ≤ updated_at`, and ids are unique across all live items. -/
theorem C2_amended_invariant (db : Db) (t : ℕ) (h : ReachSafe db t) :
    (dbKeys db).Nodup ∧
    ((read_items db).map Item.id).Nodup ∧
    ∀ k it, (k, it) ∈ db → it.id = k ∧ itemSchemaOk it = true ∧
      it.created_at ≤ it.updated_at := by
  obtain ⟨hnd, hmem⟩ := reachSafe_dbInvAux h
  refine ⟨hnd, ?_, fun k it hk =>
    ⟨(hmem k it hk).1, (hmem k it hk).2.1, (hmem k it hk).2.2.1⟩⟩
  have hmap : (read_items db).map Item.id = dbKeys db := by
    rw [read_items, List.map_map]
    apply List.map_congr_left
    intro a ha
    exact (hmem a.1 a.2 ha).1
  rw [hmap]
  exact hnd

/-- Witness for the amended C2 at a concrete reachable state. -/
theorem C2_amended_invariant_witness :
    ReachSafe (applyOp (applyOp [] 0 (.create "i" samplePayload)) 5
        (.update "i" pricePatch)) 5 ∧
    ((dbKeys (applyOp (applyOp [] 0 (.create "i" samplePayload)) 5
        (.update "i" pricePatch))).Nodup ∧
     ((read_items (applyOp (applyOp [] 0 (.create "i" samplePayload)) 5
        (.update "i" pricePatch))).map Item.id).Nodup ∧
     ∀ k it, (k, it) ∈ applyOp (applyOp [] 0 (.create "i" samplePayload)) 5
        (.update "i" pricePatch) →
       it.id = k ∧ itemSchemaOk it = true ∧
       it.created_at ≤ it.updated_at) :=
  ⟨ReachSafe.step (ReachSafe.step ReachSafe.init (Nat.le_refl 0) rfl)
      (Nat.zero_le 5) (by decide),
   C2_amended_invariant _ 5
     (ReachSafe.step (ReachSafe.step ReachSafe.init (Nat.le_refl 0) rfl)
       (Nat.zero_le 5) (by decide))⟩

/-- C3 counterexample: the claim fails as stated.  The patch
`{"name": null}` on the existing item "i" passes ItemUpdate validation and
the update succeeds, while Create rejects a body carrying those same fields
(`name` null, together with a valid price): the checks are not the same. -/
theorem C3_counterexample :
    (update_item sampleDb "i" 1 nullNamePatch).isOk = true ∧
    updateErrors nullNamePatch = [] ∧
    validateCreate { nullNamePatch with price := some (some 1) } =
      .error ["name"] :=
  ⟨by decide, by decide, by decide⟩

/-- C3 amended: for every existing id and every patch that supplies no
explicit null for the required fields `name`, `price`, `tags`, Update
rejects with ValidationError exactly when Create would reject an input
containing those same fields — the violated-field list equals the Create
validation of the patch completed with valid values for the absent required
fields — and no other check is applied: with the id present, update can
fail only with that validation error. -/
theorem C3_amended_validation (db : Db) (i : String) (now : ℕ) (p : Payload)
    (it : Item) (hit : dbFind db i = some it)
    (hnf : patchNullFree p = true) :
    updateErrors p = createErrors (completeWithValid p) ∧
    ((update_item db i now p).isOk = true ↔
      createErrors (completeWithValid p) = []) ∧
    (updateErrors p ≠ [] →
      update_item db i now p = .error (.validation (updateErrors p))) := by
  simp only [patchNullFree, Bool.and_eq_true, decide_eq_true_eq] at hnf
  obtain ⟨⟨fn, fp⟩, ftg⟩ := hnf
  have hx : nameOk "x" = true := by decide
  have h1 : priceOk (1 : ℚ) = true := by decide
  have hkey : updateErrors p = createErrors (completeWithValid p) := by
    unfold updateErrors createErrors completeWithValid
    rcases en : p.name with _ | (_ | s) <;>
      rcases ep : p.price with _ | (_ | q) <;>
      rcases eg : p.tags with _ | (_ | l) <;>
      simp_all [hx, h1]
  refine ⟨hkey, ?_, ?_⟩
  · rw [← hkey]
    constructor
    · intro hok
      by_cases hne : updateErrors p = []
      · exact hne
      · exfalso
        simp [update_item, hne, Except.isOk, Except.toBool] at hok
    · intro hnil
      simp [update_item, hnil, hit, Except.isOk, Except.toBool]
  · intro hne
    simp [update_item, hne]

/-- Witness for the amended C3: patch `{"price": 2}` on `sampleDb`. -/
theorem C3_amended_validation_witness :
    dbFind sampleDb "i" = some sampleItem ∧
    patchNullFree pricePatch = true ∧
    (updateErrors pricePatch = createErrors (completeWithValid pricePatch) ∧
     ((update_item sampleDb "i" 1 pricePatch).isOk = true ↔
       createErrors (completeWithValid pricePatch) = []) ∧
     (updateErrors pricePatch ≠ [] →
       update_item sampleDb "i" 1 pricePatch =
         .error (.validation (updateErrors pricePatch)))) :=
  ⟨by decide, by decide,
   C3_amended_validation sampleDb "i" 1 pricePatch sampleItem
     (by decide) (by decide)⟩

/-- C6 counterexample: the claim fails as stated.  A PUT on the absent id
"missing" with body `{"price": -1}` fails with ValidationError — FastAPI
validates the body before the handler's existence check runs — not with
NotFound. -/
theorem C6_counterexample :
    update_item [] "missing" 0 badPricePatch =
      .error (.validation ["price"]) ∧
    update_item [] "missing" 0 badPricePatch ≠
      .error (.notFound (notFoundMsg "missing")) :=
  ⟨by decide, by decide⟩

/-- C6 amended: for every id absent from the registry — deleted ids
included — and every patch that passes ItemUpdate validation, Get, Update
and Delete all fail with NotFound carrying the message naming the missing
id, List never returns an item with that id, and the failing calls leave
the registry unchanged. -/
theorem C6_amended_not_found (db : Db) (i : String) (now : ℕ) (p : Payload)
    (habs : dbFind db i = none) (hval : updateErrors p = [])
    (hids : ∀ k it, (k, it) ∈ db → it.id = k) :
    read_item db i = .error (.notFound (notFoundMsg i)) ∧
    update_item db i now p = .error (.notFound (notFoundMsg i)) ∧
    delete_item db i = .error (.notFound (notFoundMsg i)) ∧
    (∀ it, it ∈ read_items db → it.id ≠ i) ∧
    applyOp db now (.update i p) = db ∧
    applyOp db now (.delete i) = db := by
  have hupd : update_item db i now p = .error (.notFound (notFoundMsg i)) := by
    simp [update_item, hval, habs]
  have hdel : delete_item db i = .error (.notFound (notFoundMsg i)) := by
    simp [delete_item, habs]
  refine ⟨by simp [read_item, habs], hupd, hdel, ?_, ?_, ?_⟩
  · intro it hmem hid
    obtain ⟨⟨k, x⟩, hm, he⟩ := List.mem_map.mp hmem
    cases he
    have hk : k = i := by
      rw [← hids k x hm]
      exact hid
    subst hk
    have hsome := dbFind_isSome_of_mem hm
    rw [habs] at hsome
    simp at hsome
  · simp [applyOp, hupd]
  · simp [applyOp, hdel]

/-- Witness for the amended C6: the absent id "zzz" on `sampleDb` with the
empty patch. -/
theorem C6_amended_not_found_witness :
    dbFind sampleDb "zzz" = none ∧ updateErrors Payload.empty = [] ∧
    (read_item sampleDb "zzz" = .error (.notFound (notFoundMsg "zzz")) ∧
     update_item sampleDb "zzz" 2 Payload.empty =
       .error (.notFound (notFoundMsg "zzz")) ∧
     delete_item sampleDb "zzz" = .error (.notFound (notFoundMsg "zzz")) ∧
     (∀ it, it ∈ read_items sampleDb → it.id ≠ "zzz") ∧
     applyOp sampleDb 2 (.update "zzz" Payload.empty) = sampleDb ∧
     applyOp sampleDb 2 (.delete "zzz") = sampleDb) :=
  ⟨by decide, by decide,
   C6_amended_not_found sampleDb "zzz" 2 Payload.empty (by decide) (by decide)
     (by
       intro k it hk
       simp [sampleDb] at hk
       obtain ⟨rfl, rfl⟩ := hk
       decide)⟩

end ItemRegistry
